import Mathlib

/-
  Shallow embedding of src/FindingLychee.ino (Arduino AVR sketch).

  Modelling conventions:
  - The target is an 8-bit AVR where C `int` and `unsigned int` are 16 bits.
    A C `int` value is represented by its 16-bit two of complement bit
    pattern, a `Nat` below 65536; `sext` recovers the signed value where the
    code prints or compares it as signed.
  - The EEPROM (24C256) is a byte-addressable store `mem : Nat -> Nat`
    addressed by a 16-bit offset; the two address bytes sent on the wire
    truncate every address modulo 65536.
  - `float` values are carried as their raw 4-byte representation (structure
    `Flt`), exactly as the code copies them byte by byte with `(byte*)&f`.
  - Physical device effects (performed write transactions and the 10 ms
    settle delay) are recorded chronologically in `dev`; serial output is
    recorded as a token list in `out` (one token per Serial.print call,
    `Tok.nl` for println).  The control-channel input bytes pending in the
    Serial receive buffer are the list `sin`; the GPS fix stream is
    abstracted as a list of optional location samples `gps` (TinyGPS++,
    smartDelay and millis are external collaborators, out of scope).
  - In `read_time`, the C code shifts a signed 16-bit int; gcc uses an
    arithmetic shift, but because each shifted value is masked with 0x3F and
    shift + mask width <= 16, the arithmetic and logical shifts agree on
    every bit the mask keeps, so the logical shift `>>>` is used.
-/

/-- Raw 4-byte representation of a C `float` (the code serializes floats by
copying their in-memory bytes, never interpreting them numerically). -/
structure Flt where
  b0 : Nat
  b1 : Nat
  b2 : Nat
  b3 : Nat
deriving DecidableEq, Repr

/-- struct Time of the sketch: hour, minute, second bytes of the GPS fix. -/
structure Time where
  hour : Nat
  minute : Nat
  second : Nat
deriving DecidableEq, Repr

/-- struct LocationItem of the sketch: latitude, longitude and fix time. -/
structure LocationItem where
  lat : Flt
  lng : Flt
  time : Time
deriving DecidableEq, Repr

/-- A physical device event: a performed EEPROM write transaction (device
address, 16-bit memory address, data byte) or a settle delay in ms. -/
inductive DevEvt where
  | writeTx : Nat → Nat → Nat → DevEvt
  | delayMs : Nat → DevEvt
deriving DecidableEq, Repr

/-- One serial output token, one per Serial.print call: a string literal, a
number printed in decimal (signed where the C type is signed), a character,
a float printed with the given number of decimal places, or the line end
produced by Serial.println. -/
inductive Tok where
  | str : String → Tok
  | num : Int → Tok
  | chr : Nat → Tok
  | flt : Flt → Nat → Tok
  | nl : Tok
deriving DecidableEq, Repr

/-- The EEPROM content: byte stored at each 16-bit address. -/
def Mem : Type := Nat → Nat

/-- Whole-system state: EEPROM bytes, physical device event log, serial
output, pending serial input bytes, GPS sample stream, and the mode flag. -/
structure St where
  mem : Mem
  dev : List DevEvt
  out : List Tok
  sin : List Nat
  gps : List (Option LocationItem)
  mode : Nat

/-- Append serial output tokens (a sequence of Serial.print calls). -/
def emit (st : St) (ts : List Tok) : St :=
  { st with out := st.out ++ ts }

/-- Signed value of a 16-bit pattern (two of complement). -/
def sext (p : Nat) : Int :=
  if p < 32768 then (p : Int) else (p : Int) - 65536

def SERIALIZED_LENGTH : Nat := 10

def MAX_ITEMS_IN_MEMORY : Nat := 3275

/-- i2c_eeprom_read_byte: reads the byte at the 16-bit address (the device
receives the address high byte and low byte, hence modulo 65536).  The
device address argument is kept from the source; the sketch always passes
0x50.  The 0xFF default for a silent device is not modelled: the store
always answers (a corrupt store is modelled by the content of `mem`). -/
def i2c_eeprom_read_byte (m : Mem) (deviceaddress eeaddress : Nat) : Nat :=
  m (eeaddress % 65536)

/-- i2c_eeprom_write_byte: reads the byte first and skips the write when the
stored value already equals the data (wear reduction); a performed write
appends one write transaction followed by the 10 ms settle delay. -/
def i2c_eeprom_write_byte (st : St) (deviceaddress eeaddress data : Nat) : St :=
  let memoryByte := i2c_eeprom_read_byte st.mem deviceaddress eeaddress
  if memoryByte = data then st
  else
    { st with
      mem := fun x => if x = eeaddress % 65536 then data else st.mem x,
      dev := st.dev ++ [DevEvt.writeTx deviceaddress (eeaddress % 65536) data,
                        DevEvt.delayMs 10] }

/-- write_int: stores the 16-bit int pattern little endian (pb[0] is the low
byte on AVR) at address and address + 1. -/
def write_int (st : St) (address i : Nat) : St :=
  let st1 := i2c_eeprom_write_byte st 0x50 (address + 0) (i % 256)
  i2c_eeprom_write_byte st1 0x50 (address + 1) (i / 256 % 256)

/-- read_int: reads the two bytes back into the 16-bit int pattern. -/
def read_int (m : Mem) (address : Nat) : Nat :=
  i2c_eeprom_read_byte m 0x50 (address + 0) +
    256 * i2c_eeprom_read_byte m 0x50 (address + 1)

/-- write_float: writes the 4 raw bytes pb[0] .. pb[3] at consecutive
addresses (the source loop unrolled). -/
def write_float (st : St) (address : Nat) (f : Flt) : St :=
  let st1 := i2c_eeprom_write_byte st 0x50 (address + 0) f.b0
  let st2 := i2c_eeprom_write_byte st1 0x50 (address + 1) f.b1
  let st3 := i2c_eeprom_write_byte st2 0x50 (address + 2) f.b2
  i2c_eeprom_write_byte st3 0x50 (address + 3) f.b3

/-- read_float: reads the 4 raw bytes back. -/
def read_float (m : Mem) (address : Nat) : Flt :=
  { b0 := i2c_eeprom_read_byte m 0x50 (address + 0),
    b1 := i2c_eeprom_read_byte m 0x50 (address + 1),
    b2 := i2c_eeprom_read_byte m 0x50 (address + 2),
    b3 := i2c_eeprom_read_byte m 0x50 (address + 3) }

/-- The packed 16-bit time word computed by write_time:
hour12 | minute << 4 | second << 10, evaluated in 16-bit int arithmetic
(each shift result and the whole word truncated modulo 65536). -/
def packedTime (t : Time) : Nat :=
  let hour12 := if t.hour ≤ 12 then t.hour else t.hour - 12
  (hour12 ||| (t.minute <<< 4) % 65536 ||| (t.second <<< 10) % 65536) % 65536

/-- write_time: packs the time and stores the 16-bit word via write_int. -/
def write_time (st : St) (address : Nat) (t : Time) : St :=
  write_int st address (packedTime t)

/-- read_time: unpacks hour, minute, second with shift and mask.  The C
shifts are arithmetic on the signed int, but under the 0x3F masks they
agree with the logical shifts used here (see the header note). -/
def read_time (m : Mem) (address : Nat) : Time :=
  let packed := read_int m address
  { hour := packed &&& 0xF,
    minute := (packed >>> 4) &&& 0x3F,
    second := (packed >>> 10) &&& 0x3F }

/-- write_location_item: slot index starts at byte 2 + index * 10 and the
fields are written in source order: lng (4 bytes), lat (4 bytes), time (2
bytes). -/
def write_location_item (st : St) (index : Nat) (loc : LocationItem) : St :=
  let field_addr := 2 + index * SERIALIZED_LENGTH
  let st1 := write_float st field_addr loc.lng
  let st2 := write_float st1 (field_addr + 4) loc.lat
  write_time st2 (field_addr + 8) loc.time

/-- read_location_item: reads the slot back in the same field order. -/
def read_location_item (m : Mem) (index : Nat) : LocationItem :=
  let field_addr := 2 + index * SERIALIZED_LENGTH
  { lng := read_float m field_addr,
    lat := read_float m (field_addr + 4),
    time := read_time m (field_addr + 8) }

/-- add_location_item: reads the counter (a 16-bit int), prints the debug
line, and when the capacity check passes writes the record at slot i and
then the incremented counter.  The C comparison `i < MAX_ITEMS_IN_MEMORY`
compares an int with an unsigned int of the same rank, so the int is
converted to unsigned and the comparison is on the 16-bit pattern. -/
def add_location_item (st : St) (loc : LocationItem) : St :=
  let i := read_int st.mem 0
  let st1 := emit st [Tok.str "read i=", Tok.num (sext i),
                      Tok.str "MAX=", Tok.num 3275, Tok.nl]
  if i < MAX_ITEMS_IN_MEMORY then
    let st2 := write_location_item st1 i loc
    write_int st2 0 (i + 1)
  else st1

/-- The tokens of one export record line, one per Serial.print call of
print_location_item: lng and lat with 6 decimal places, then
hour:minute:second. -/
def recordLine (v : LocationItem) : List Tok :=
  [Tok.flt v.lng 6, Tok.str ",", Tok.flt v.lat 6, Tok.str ",",
   Tok.num (v.time.hour : Int), Tok.str ":", Tok.num (v.time.minute : Int),
   Tok.str ":", Tok.num (v.time.second : Int)]

/-- print_location_item: emits one record line terminated by println. -/
def print_location_item (st : St) (v : LocationItem) : St :=
  emit st (recordLine v ++ [Tok.nl])

/-- The export for loop: for index from 0 below n, read the record at index
from the current state and print it. -/
def export_loop (st : St) (n : Nat) : St :=
  (List.range n).foldl
    (fun s index => print_location_item s (read_location_item s.mem index)) st

/-- execute_command_export: reads the counter, prints the diagnostic line,
then loops index from 0 below itemsCount printing each record.  The C loop
compares two signed ints, so a counter pattern at or above 0x8000 (negative
as an int) runs zero iterations. -/
def execute_command_export (st : St) : St :=
  let itemsCount := read_int st.mem 0
  let st1 := emit st [Tok.str "read itemsCount=", Tok.num (sext itemsCount), Tok.nl]
  let n := if itemsCount < 32768 then itemsCount else 0
  export_loop st1 n

/-- execute_command_reset: exports everything first, then writes counter 0,
reads it back and prints the confirmation. -/
def execute_command_reset (st : St) : St :=
  let st1 := execute_command_export st
  let st2 := write_int st1 0 0
  let zeroItems := read_int st2.mem 0
  emit st2 [Tok.str "Memory reset", Tok.nl, Tok.str "i=",
            Tok.num (sext zeroItems), Tok.nl]

/-- execute_command_help: the fixed help banner. -/
def execute_command_help (st : St) : St :=
  emit st [Tok.str "FindingLychee 1.0.0 by Ido Ran", Tok.nl,
           Tok.str "0 - help", Tok.nl,
           Tok.str "1 - export", Tok.nl,
           Tok.str "2 - reset", Tok.nl]

def MODE_TRACKING : Nat := 0

def MODE_COMMAND : Nat := 1

def COMMAND_HELP : Nat := 0

def COMMAND_EXPORT : Nat := 1

def COMMAND_RESET : Nat := 2

/-- The initial value of the global mode flag (int mode = MODE_TRACKING). -/
def modeInit : Nat := MODE_TRACKING

/-- execute_command: the switch over the three commands. -/
def execute_command (st : St) (command : Nat) : St :=
  if command = COMMAND_HELP then execute_command_help st
  else if command = COMMAND_EXPORT then execute_command_export st
  else if command = COMMAND_RESET then execute_command_reset st
  else st

/-- process_serial_command: when a control byte is pending, consume it, echo
it, and when it is an ASCII digit dispatch the command.  A byte at or above
128 is a negative signed char in C and fails the digit test just as it
fails 48 <= c here. -/
def process_serial_command (st : St) : St :=
  match st.sin with
  | [] => st
  | inChar :: rest =>
    let st1 := emit { st with sin := rest }
      [Tok.str ">>>> ", Tok.chr inChar, Tok.nl]
    if 48 ≤ inChar ∧ inChar ≤ 57 then execute_command st1 (inChar - 48)
    else st1

/-- gps_tracking: with a valid fix the location is appended; without one a
diagnostic line is printed.  The TinyGPS++ date and time text, smartDelay
(which only drains the GPS software serial) and the millis based wiring
diagnostic are external collaborators and are abstracted. -/
def gps_tracking (st : St) : St :=
  match st.gps with
  | some loc :: rest => add_location_item { st with gps := rest } loc
  | none :: rest => emit { st with gps := rest } [Tok.str "* ", Tok.nl]
  | [] => emit st [Tok.str "* ", Tok.nl]

/-- loop: one iteration of the Arduino main loop.  Tracking or command
handling first, then the mode switches to COMMAND whenever a control byte
is pending (gps_tracking never consumes control bytes). -/
def loop (st : St) : St :=
  let st1 :=
    if st.mode = MODE_TRACKING then gps_tracking st
    else if st.mode = MODE_COMMAND then process_serial_command st
    else st
  if st1.sin ≠ [] then { st1 with mode := MODE_COMMAND } else st1

/-- Number of physical write transactions in a device event log. -/
def writeTxCount (l : List DevEvt) : Nat :=
  l.countP fun e =>
    match e with
    | DevEvt.writeTx _ _ _ => true
    | DevEvt.delayMs _ => false

/-- A device event lies in the address window [lo, hi] (delays always do). -/
def evtIn (lo hi : Nat) : DevEvt → Prop
  | DevEvt.writeTx _ a _ => lo ≤ a ∧ a ≤ hi
  | DevEvt.delayMs _ => True

/-- The device log of `t` extends the one of `s` only by events whose
addresses lie in the window [lo, hi]. -/
def devExt (s t : St) (lo hi : Nat) : Prop :=
  ∃ E, t.dev = s.dev ++ E ∧ ∀ e ∈ E, evtIn lo hi e

/-- Output, serial input, GPS stream and mode flag are untouched. -/
def framePres (s t : St) : Prop :=
  t.out = s.out ∧ t.sin = s.sin ∧ t.gps = s.gps ∧ t.mode = s.mode

/-- Serial input, GPS stream and mode flag are untouched. -/
def ctrlPres (s t : St) : Prop :=
  t.sin = s.sin ∧ t.gps = s.gps ∧ t.mode = s.mode

/-- The ten bytes written for a record slot, in the order of the source:
lng (4 bytes), lat (4 bytes), packed time little endian (2 bytes). -/
def encByte (loc : LocationItem) : Nat → Nat
  | 0 => loc.lng.b0
  | 1 => loc.lng.b1
  | 2 => loc.lng.b2
  | 3 => loc.lng.b3
  | 4 => loc.lat.b0
  | 5 => loc.lat.b1
  | 6 => loc.lat.b2
  | 7 => loc.lat.b3
  | 8 => packedTime loc.time % 256
  | _ => packedTime loc.time / 256 % 256

/-- N successive appends, as the tracking loop would issue them. -/
def appendAll (st : St) (l : List LocationItem) : St :=
  l.foldl add_location_item st

/-- The tokens an export of the given store content emits: the diagnostic
line, then one record line per valid index. -/
def exportToks (m : Mem) : List Tok :=
  let itemsCount := read_int m 0
  let n := if itemsCount < 32768 then itemsCount else 0
  [Tok.str "read itemsCount=", Tok.num (sext itemsCount), Tok.nl] ++
    ((List.range n).map
      (fun index => recordLine (read_location_item m index) ++ [Tok.nl])).join

/-- The complete lines in a token stream: maximal nl-terminated chunks, an
unterminated tail dropped. -/
def linesOf : List Tok → List (List Tok)
  | [] => []
  | Tok.nl :: rest => [] :: linesOf rest
  | t :: rest =>
    match linesOf rest with
    | [] => []
    | L :: Ls => (t :: L) :: Ls

def wSt0 : St :=
  { mem := fun _ => 0, dev := [], out := [], sin := [], gps := [], mode := 0 }

def wLoc1 : LocationItem :=
  { lat := { b0 := 1, b1 := 2, b2 := 3, b3 := 4 },
    lng := { b0 := 5, b1 := 6, b2 := 7, b3 := 8 },
    time := { hour := 15, minute := 45, second := 5 } }

/-- A record whose hour field exceeds 12 (here 13). -/
def wLoc13 : LocationItem :=
  { lat := { b0 := 0, b1 := 0, b2 := 0, b3 := 0 },
    lng := { b0 := 0, b1 := 0, b2 := 0, b3 := 0 },
    time := { hour := 13, minute := 0, second := 0 } }

def wLoc2 : LocationItem :=
  { lat := { b0 := 9, b1 := 10, b2 := 11, b3 := 12 },
    lng := { b0 := 13, b1 := 14, b2 := 15, b3 := 16 },
    time := { hour := 10, minute := 15, second := 30 } }

def cSt9 : St :=
  { mem := fun _ => 0xFF, dev := [], out := [], sin := [], gps := [], mode := 0 }

def wStT : St :=
  { mem := fun _ => 0, dev := [], out := [], sin := [49], gps := [],
    mode := MODE_TRACKING }

def wStC : St :=
  { mem := fun _ => 0, dev := [], out := [], sin := [], gps := [],
    mode := MODE_COMMAND }

theorem evtIn_mono {lo hi lo2 hi2 : Nat} {e : DevEvt} (hl : lo2 ≤ lo)
    (hh : hi ≤ hi2) (h : evtIn lo hi e) : evtIn lo2 hi2 e := by
  cases e with
  | writeTx d a v => exact ⟨Nat.le_trans hl h.1, Nat.le_trans h.2 hh⟩
  | delayMs n => trivial

theorem wb_mem (st : St) (d a v : Nat) (ha : a < 65536) :
    ∀ x, (i2c_eeprom_write_byte st d a v).mem x = if x = a then v else st.mem x := by
  intro x
  simp only [i2c_eeprom_write_byte, i2c_eeprom_read_byte, Nat.mod_eq_of_lt ha]
  split
  · next heq =>
    by_cases hx : x = a
    · subst hx; simp [heq]
    · simp [hx]
  · simp

theorem wb_dev (st : St) (d a v : Nat) (ha : a < 65536) :
    ∃ E, (i2c_eeprom_write_byte st d a v).dev = st.dev ++ E ∧
      ∀ e ∈ E, evtIn a a e := by
  simp only [i2c_eeprom_write_byte, i2c_eeprom_read_byte, Nat.mod_eq_of_lt ha]
  split
  · exact ⟨[], by simp, by simp⟩
  · refine ⟨[DevEvt.writeTx d a v, DevEvt.delayMs 10], rfl, ?_⟩
    intro e he
    simp only [List.mem_cons, List.not_mem_nil, or_false] at he
    rcases he with he | he
    · subst he; exact ⟨Nat.le_refl a, Nat.le_refl a⟩
    · subst he; trivial

theorem wb_frame (st : St) (d a v : Nat) :
    (i2c_eeprom_write_byte st d a v).out = st.out ∧
    (i2c_eeprom_write_byte st d a v).sin = st.sin ∧
    (i2c_eeprom_write_byte st d a v).gps = st.gps ∧
    (i2c_eeprom_write_byte st d a v).mode = st.mode := by
  simp only [i2c_eeprom_write_byte]
  split <;> simp

theorem write_int_mem (st : St) (a p : Nat) (ha : a + 1 < 65536) :
    ∀ x, (write_int st a p).mem x =
      if x = a + 1 then p / 256 % 256 else if x = a then p % 256 else st.mem x := by
  intro x
  simp only [write_int]
  rw [wb_mem _ _ _ _ (by omega), wb_mem _ _ _ _ (by omega)]
  simp only [Nat.add_zero]

theorem write_float_mem (st : St) (a : Nat) (f : Flt) (ha : a + 3 < 65536) :
    ∀ x, (write_float st a f).mem x =
      if x = a + 3 then f.b3 else if x = a + 2 then f.b2 else
      if x = a + 1 then f.b1 else if x = a then f.b0 else st.mem x := by
  intro x
  simp only [write_float]
  rw [wb_mem _ _ _ _ (by omega), wb_mem _ _ _ _ (by omega),
    wb_mem _ _ _ _ (by omega), wb_mem _ _ _ _ (by omega)]
  simp only [Nat.add_zero]

theorem write_time_mem (st : St) (a : Nat) (t : Time) (ha : a + 1 < 65536) :
    ∀ x, (write_time st a t).mem x =
      if x = a + 1 then packedTime t / 256 % 256 else
      if x = a then packedTime t % 256 else st.mem x := by
  intro x
  simp only [write_time]
  exact write_int_mem st a (packedTime t) ha x

theorem read_int_write_int (st : St) (a p : Nat) (ha : a + 1 < 65536)
    (hp : p < 65536) : read_int (write_int st a p).mem a = p := by
  simp only [read_int, i2c_eeprom_read_byte, Nat.add_zero]
  rw [Nat.mod_eq_of_lt (by omega), Nat.mod_eq_of_lt (by omega)]
  rw [write_int_mem st a p ha a, write_int_mem st a p ha (a + 1)]
  split_ifs <;> omega

theorem packedTime_lt (t : Time) : packedTime t < 65536 := by
  unfold packedTime
  exact Nat.mod_lt _ (by omega)

theorem lor_low_high {a c k : Nat} (ha : a < 2 ^ k) :
    a ||| 2 ^ k * c = a + 2 ^ k * c := by
  rw [Nat.lor_comm, ← Nat.mul_add_lt_is_or ha c]
  omega

theorem packedTime_eq (t : Time) (hh : t.hour ≤ 23) (hm : t.minute < 64)
    (hs : t.second < 64) :
    packedTime t = (if t.hour ≤ 12 then t.hour else t.hour - 12) +
      16 * t.minute + 1024 * t.second := by
  unfold packedTime
  dsimp only
  set h12 := if t.hour ≤ 12 then t.hour else t.hour - 12 with hdef
  have h12lt : h12 < 16 := by rw [hdef]; split <;> omega
  have e1 : (t.minute <<< 4) % 65536 = 2 ^ 4 * t.minute := by
    rw [Nat.shiftLeft_eq, Nat.mul_comm, Nat.mod_eq_of_lt]
    have : (2 : Nat) ^ 4 = 16 := by norm_num
    omega
  have e2 : (t.second <<< 10) % 65536 = 2 ^ 10 * t.second := by
    rw [Nat.shiftLeft_eq, Nat.mul_comm, Nat.mod_eq_of_lt]
    have : (2 : Nat) ^ 10 = 1024 := by norm_num
    omega
  rw [e1, e2]
  have o1 : h12 ||| 2 ^ 4 * t.minute = h12 + 2 ^ 4 * t.minute :=
    lor_low_high (by omega)
  rw [o1]
  have p4 : (2 : Nat) ^ 4 = 16 := by norm_num
  have p10 : (2 : Nat) ^ 10 = 1024 := by norm_num
  have o2 : h12 + 2 ^ 4 * t.minute ||| 2 ^ 10 * t.second =
      h12 + 2 ^ 4 * t.minute + 2 ^ 10 * t.second :=
    lor_low_high (by omega)
  rw [o2, Nat.mod_eq_of_lt (by omega)]
  omega

theorem and_15_eq_mod (x : Nat) : x &&& 15 = x % 16 := by
  have h := Nat.and_pow_two_sub_one_eq_mod x 4
  norm_num at h
  exact h

theorem and_63_eq_mod (x : Nat) : x &&& 63 = x % 64 := by
  have h := Nat.and_pow_two_sub_one_eq_mod x 6
  norm_num at h
  exact h

theorem packedTime_fields (t : Time) (hh : t.hour ≤ 23) (hm : t.minute < 64)
    (hs : t.second < 64) :
    packedTime t &&& 0xF = (if t.hour = 12 then 12 else t.hour % 12) ∧
    (packedTime t >>> 4) &&& 0x3F = t.minute ∧
    (packedTime t >>> 10) &&& 0x3F = t.second := by
  obtain ⟨h, m, s⟩ := t
  simp only at hh hm hs
  rw [packedTime_eq ⟨h, m, s⟩ hh hm hs]
  simp only
  rw [and_15_eq_mod, and_63_eq_mod, and_63_eq_mod,
    Nat.shiftRight_eq_div_pow, Nat.shiftRight_eq_div_pow]
  have p4 : (2 : Nat) ^ 4 = 16 := by norm_num
  have p10 : (2 : Nat) ^ 10 = 1024 := by norm_num
  rw [p4, p10]
  by_cases hle : h ≤ 12
  · rw [if_pos hle]
    refine ⟨?_, by omega, by omega⟩
    split_ifs <;> omega
  · rw [if_neg hle]
    refine ⟨?_, by omega, by omega⟩
    split_ifs <;> omega

theorem wli_mem (st : St) (i : Nat) (loc : LocationItem) (hi : i < 3275) :
    ∀ x, (write_location_item st i loc).mem x =
      if x = 2 + i * 10 + 8 + 1 then packedTime loc.time / 256 % 256 else
      if x = 2 + i * 10 + 8 then packedTime loc.time % 256 else
      if x = 2 + i * 10 + 4 + 3 then loc.lat.b3 else
      if x = 2 + i * 10 + 4 + 2 then loc.lat.b2 else
      if x = 2 + i * 10 + 4 + 1 then loc.lat.b1 else
      if x = 2 + i * 10 + 4 then loc.lat.b0 else
      if x = 2 + i * 10 + 3 then loc.lng.b3 else
      if x = 2 + i * 10 + 2 then loc.lng.b2 else
      if x = 2 + i * 10 + 1 then loc.lng.b1 else
      if x = 2 + i * 10 then loc.lng.b0 else st.mem x := by
  intro x
  simp only [write_location_item, SERIALIZED_LENGTH]
  rw [write_time_mem _ _ _ (by omega), write_float_mem _ _ _ (by omega),
    write_float_mem _ _ _ (by omega)]

theorem wli_mem_slot (st : St) (i : Nat) (loc : LocationItem) (hi : i < 3275) :
    ∀ j, j < 10 → (write_location_item st i loc).mem (2 + i * 10 + j) = encByte loc j := by
  have n9 : ∀ k, k < 9 → ¬(2 + i * 10 + k = 2 + i * 10 + 8 + 1) := by omega
  have n8 : ∀ k, k < 8 → ¬(2 + i * 10 + k = 2 + i * 10 + 8) := by omega
  have n7 : ∀ k, k < 7 → ¬(2 + i * 10 + k = 2 + i * 10 + 4 + 3) := by omega
  have n6 : ∀ k, k < 6 → ¬(2 + i * 10 + k = 2 + i * 10 + 4 + 2) := by omega
  have n5 : ∀ k, k < 5 → ¬(2 + i * 10 + k = 2 + i * 10 + 4 + 1) := by omega
  have n4 : ∀ k, k < 4 → ¬(2 + i * 10 + k = 2 + i * 10 + 4) := by omega
  have n3 : ∀ k, k < 3 → ¬(2 + i * 10 + k = 2 + i * 10 + 3) := by omega
  have n2 : ∀ k, k < 2 → ¬(2 + i * 10 + k = 2 + i * 10 + 2) := by omega
  have n1 : ∀ k, k < 1 → ¬(2 + i * 10 + k = 2 + i * 10 + 1) := by omega
  have s0 : (write_location_item st i loc).mem (2 + i * 10 + 0) = loc.lng.b0 := by
    rw [wli_mem st i loc hi, if_neg (n9 0 (by omega)), if_neg (n8 0 (by omega)),
      if_neg (n7 0 (by omega)), if_neg (n6 0 (by omega)), if_neg (n5 0 (by omega)),
      if_neg (n4 0 (by omega)), if_neg (n3 0 (by omega)), if_neg (n2 0 (by omega)),
      if_neg (n1 0 (by omega)), if_pos (show 2 + i * 10 + 0 = 2 + i * 10 by omega)]
  have s1 : (write_location_item st i loc).mem (2 + i * 10 + 1) = loc.lng.b1 := by
    rw [wli_mem st i loc hi, if_neg (n9 1 (by omega)), if_neg (n8 1 (by omega)),
      if_neg (n7 1 (by omega)), if_neg (n6 1 (by omega)), if_neg (n5 1 (by omega)),
      if_neg (n4 1 (by omega)), if_neg (n3 1 (by omega)), if_neg (n2 1 (by omega)),
      if_pos rfl]
  have s2 : (write_location_item st i loc).mem (2 + i * 10 + 2) = loc.lng.b2 := by
    rw [wli_mem st i loc hi, if_neg (n9 2 (by omega)), if_neg (n8 2 (by omega)),
      if_neg (n7 2 (by omega)), if_neg (n6 2 (by omega)), if_neg (n5 2 (by omega)),
      if_neg (n4 2 (by omega)), if_neg (n3 2 (by omega)), if_pos rfl]
  have s3 : (write_location_item st i loc).mem (2 + i * 10 + 3) = loc.lng.b3 := by
    rw [wli_mem st i loc hi, if_neg (n9 3 (by omega)), if_neg (n8 3 (by omega)),
      if_neg (n7 3 (by omega)), if_neg (n6 3 (by omega)), if_neg (n5 3 (by omega)),
      if_neg (n4 3 (by omega)), if_pos rfl]
  have s4 : (write_location_item st i loc).mem (2 + i * 10 + 4) = loc.lat.b0 := by
    rw [wli_mem st i loc hi, if_neg (n9 4 (by omega)), if_neg (n8 4 (by omega)),
      if_neg (n7 4 (by omega)), if_neg (n6 4 (by omega)), if_neg (n5 4 (by omega)),
      if_pos rfl]
  have s5 : (write_location_item st i loc).mem (2 + i * 10 + 5) = loc.lat.b1 := by
    rw [wli_mem st i loc hi, if_neg (n9 5 (by omega)), if_neg (n8 5 (by omega)),
      if_neg (n7 5 (by omega)), if_neg (n6 5 (by omega)),
      if_pos (show 2 + i * 10 + 5 = 2 + i * 10 + 4 + 1 by omega)]
  have s6 : (write_location_item st i loc).mem (2 + i * 10 + 6) = loc.lat.b2 := by
    rw [wli_mem st i loc hi, if_neg (n9 6 (by omega)), if_neg (n8 6 (by omega)),
      if_neg (n7 6 (by omega)),
      if_pos (show 2 + i * 10 + 6 = 2 + i * 10 + 4 + 2 by omega)]
  have s7 : (write_location_item st i loc).mem (2 + i * 10 + 7) = loc.lat.b3 := by
    rw [wli_mem st i loc hi, if_neg (n9 7 (by omega)), if_neg (n8 7 (by omega)),
      if_pos (show 2 + i * 10 + 7 = 2 + i * 10 + 4 + 3 by omega)]
  have s8 : (write_location_item st i loc).mem (2 + i * 10 + 8) =
      packedTime loc.time % 256 := by
    rw [wli_mem st i loc hi, if_neg (n9 8 (by omega)),
      if_pos (show 2 + i * 10 + 8 = 2 + i * 10 + 8 by rfl)]
  have s9 : (write_location_item st i loc).mem (2 + i * 10 + 9) =
      packedTime loc.time / 256 % 256 := by
    rw [wli_mem st i loc hi,
      if_pos (show 2 + i * 10 + 9 = 2 + i * 10 + 8 + 1 by omega)]
  intro j hj
  interval_cases j
  · exact s0
  · exact s1
  · exact s2
  · exact s3
  · exact s4
  · exact s5
  · exact s6
  · exact s7
  · exact s8
  · exact s9

theorem wli_mem_outside (st : St) (i : Nat) (loc : LocationItem) (hi : i < 3275) :
    ∀ x, (x < 2 + i * 10 ∨ 2 + i * 10 + 10 ≤ x) →
      (write_location_item st i loc).mem x = st.mem x := by
  intro x hx
  rw [wli_mem st i loc hi, if_neg (show ¬(x = 2 + i * 10 + 8 + 1) by omega),
    if_neg (show ¬(x = 2 + i * 10 + 8) by omega),
    if_neg (show ¬(x = 2 + i * 10 + 4 + 3) by omega),
    if_neg (show ¬(x = 2 + i * 10 + 4 + 2) by omega),
    if_neg (show ¬(x = 2 + i * 10 + 4 + 1) by omega),
    if_neg (show ¬(x = 2 + i * 10 + 4) by omega),
    if_neg (show ¬(x = 2 + i * 10 + 3) by omega),
    if_neg (show ¬(x = 2 + i * 10 + 2) by omega),
    if_neg (show ¬(x = 2 + i * 10 + 1) by omega),
    if_neg (show ¬(x = 2 + i * 10) by omega)]

theorem rli_congr (m1 m2 : Mem) (i : Nat) (hi : i < 3275)
    (h : ∀ j, j < 10 → m1 (2 + i * 10 + j) = m2 (2 + i * 10 + j)) :
    read_location_item m1 i = read_location_item m2 i := by
  simp only [read_location_item, read_float, read_time, read_int,
    i2c_eeprom_read_byte, SERIALIZED_LENGTH, Nat.add_zero]
  rw [Nat.mod_eq_of_lt (show 2 + i * 10 < 65536 by omega),
    Nat.mod_eq_of_lt (show 2 + i * 10 + 1 < 65536 by omega),
    Nat.mod_eq_of_lt (show 2 + i * 10 + 2 < 65536 by omega),
    Nat.mod_eq_of_lt (show 2 + i * 10 + 3 < 65536 by omega),
    Nat.mod_eq_of_lt (show 2 + i * 10 + 4 < 65536 by omega),
    Nat.mod_eq_of_lt (show 2 + i * 10 + 4 + 1 < 65536 by omega),
    Nat.mod_eq_of_lt (show 2 + i * 10 + 4 + 2 < 65536 by omega),
    Nat.mod_eq_of_lt (show 2 + i * 10 + 4 + 3 < 65536 by omega),
    Nat.mod_eq_of_lt (show 2 + i * 10 + 8 < 65536 by omega),
    Nat.mod_eq_of_lt (show 2 + i * 10 + 8 + 1 < 65536 by omega)]
  have e0 : m1 (2 + i * 10) = m2 (2 + i * 10) := by
    have hx := h 0 (by omega); simpa using hx
  have e5 : m1 (2 + i * 10 + 4 + 1) = m2 (2 + i * 10 + 4 + 1) := by
    have hx := h 5 (by omega)
    rw [show 2 + i * 10 + 5 = 2 + i * 10 + 4 + 1 by omega] at hx; exact hx
  have e6 : m1 (2 + i * 10 + 4 + 2) = m2 (2 + i * 10 + 4 + 2) := by
    have hx := h 6 (by omega)
    rw [show 2 + i * 10 + 6 = 2 + i * 10 + 4 + 2 by omega] at hx; exact hx
  have e7 : m1 (2 + i * 10 + 4 + 3) = m2 (2 + i * 10 + 4 + 3) := by
    have hx := h 7 (by omega)
    rw [show 2 + i * 10 + 7 = 2 + i * 10 + 4 + 3 by omega] at hx; exact hx
  have e9 : m1 (2 + i * 10 + 8 + 1) = m2 (2 + i * 10 + 8 + 1) := by
    have hx := h 9 (by omega)
    rw [show 2 + i * 10 + 9 = 2 + i * 10 + 8 + 1 by omega] at hx; exact hx
  rw [e0, h 1 (by omega), h 2 (by omega), h 3 (by omega), h 4 (by omega),
    e5, e6, e7, h 8 (by omega), e9]

/-- Decoding a slot that holds the ten encoded bytes of a record yields the
record with the time fields re-extracted from the packed word. -/
theorem rli_of_slot (m : Mem) (i : Nat) (loc : LocationItem) (hi : i < 3275)
    (h : ∀ j, j < 10 → m (2 + i * 10 + j) = encByte loc j) :
    read_location_item m i =
      { lat := loc.lat, lng := loc.lng,
        time := { hour := packedTime loc.time &&& 0xF,
                  minute := (packedTime loc.time >>> 4) &&& 0x3F,
                  second := (packedTime loc.time >>> 10) &&& 0x3F } } := by
  simp only [read_location_item, read_float, read_time, read_int,
    i2c_eeprom_read_byte, SERIALIZED_LENGTH, Nat.add_zero]
  rw [Nat.mod_eq_of_lt (show 2 + i * 10 < 65536 by omega),
    Nat.mod_eq_of_lt (show 2 + i * 10 + 1 < 65536 by omega),
    Nat.mod_eq_of_lt (show 2 + i * 10 + 2 < 65536 by omega),
    Nat.mod_eq_of_lt (show 2 + i * 10 + 3 < 65536 by omega),
    Nat.mod_eq_of_lt (show 2 + i * 10 + 4 < 65536 by omega),
    Nat.mod_eq_of_lt (show 2 + i * 10 + 4 + 1 < 65536 by omega),
    Nat.mod_eq_of_lt (show 2 + i * 10 + 4 + 2 < 65536 by omega),
    Nat.mod_eq_of_lt (show 2 + i * 10 + 4 + 3 < 65536 by omega),
    Nat.mod_eq_of_lt (show 2 + i * 10 + 8 < 65536 by omega),
    Nat.mod_eq_of_lt (show 2 + i * 10 + 8 + 1 < 65536 by omega)]
  have e0 : m (2 + i * 10) = encByte loc 0 := by
    have hx := h 0 (by omega); simpa using hx
  have e5 : m (2 + i * 10 + 4 + 1) = encByte loc 5 := by
    have hx := h 5 (by omega)
    rw [show 2 + i * 10 + 5 = 2 + i * 10 + 4 + 1 by omega] at hx; exact hx
  have e6 : m (2 + i * 10 + 4 + 2) = encByte loc 6 := by
    have hx := h 6 (by omega)
    rw [show 2 + i * 10 + 6 = 2 + i * 10 + 4 + 2 by omega] at hx; exact hx
  have e7 : m (2 + i * 10 + 4 + 3) = encByte loc 7 := by
    have hx := h 7 (by omega)
    rw [show 2 + i * 10 + 7 = 2 + i * 10 + 4 + 3 by omega] at hx; exact hx
  have e9 : m (2 + i * 10 + 8 + 1) = encByte loc 9 := by
    have hx := h 9 (by omega)
    rw [show 2 + i * 10 + 9 = 2 + i * 10 + 8 + 1 by omega] at hx; exact hx
  rw [e0, h 1 (by omega), h 2 (by omega), h 3 (by omega), h 4 (by omega),
    e5, e6, e7, h 8 (by omega), e9]
  simp only [encByte]
  have hpk : packedTime loc.time % 256 + 256 * (packedTime loc.time / 256 % 256) =
      packedTime loc.time := by
    have hlt := packedTime_lt loc.time; omega
  rw [hpk]

/-- C1: for every representable record (hour in [0,23], minute and second in
[0,59]) and every slot index, read_location_item after write_location_item
at the same slot reproduces latitude and longitude exactly and minute and
second exactly, and reproduces hour as hour mod 12 with hour 12 mapping to
itself. -/
theorem roundtrip_read_write_location_item (st : St) (index : Nat)
    (loc : LocationItem) (hidx : index < MAX_ITEMS_IN_MEMORY)
    (hh : loc.time.hour ≤ 23) (hm : loc.time.minute ≤ 59)
    (hs : loc.time.second ≤ 59) :
    read_location_item (write_location_item st index loc).mem index =
      { lat := loc.lat, lng := loc.lng,
        time := { hour := if loc.time.hour = 12 then 12 else loc.time.hour % 12,
                  minute := loc.time.minute,
                  second := loc.time.second } } := by
  have hi : index < 3275 := hidx
  rw [rli_of_slot (write_location_item st index loc).mem index loc hi
    (wli_mem_slot st index loc hi)]
  obtain ⟨hf1, hf2, hf3⟩ := packedTime_fields loc.time hh (by omega) (by omega)
  rw [hf1, hf2, hf3]

theorem roundtrip_read_write_location_item_witness :
    0 < MAX_ITEMS_IN_MEMORY ∧
    read_location_item (write_location_item wSt0 0 wLoc1).mem 0 =
      { lat := wLoc1.lat, lng := wLoc1.lng,
        time := { hour := 3, minute := 45, second := 5 } } := by
  refine ⟨by decide, ?_⟩
  rw [roundtrip_read_write_location_item wSt0 0 wLoc1 (by decide) (by decide)
    (by decide) (by decide)]
  decide

theorem devExt_refl (s : St) (lo hi : Nat) : devExt s s lo hi :=
  ⟨[], by simp, by simp⟩

theorem devExt_trans {s1 s2 s3 : St} {lo hi : Nat} (h1 : devExt s1 s2 lo hi)
    (h2 : devExt s2 s3 lo hi) : devExt s1 s3 lo hi := by
  obtain ⟨E1, he1, hb1⟩ := h1
  obtain ⟨E2, he2, hb2⟩ := h2
  refine ⟨E1 ++ E2, by rw [he2, he1, List.append_assoc], ?_⟩
  intro e he
  rcases List.mem_append.mp he with h | h
  · exact hb1 e h
  · exact hb2 e h

theorem devExt_mono {s t : St} {lo hi lo2 hi2 : Nat} (hl : lo2 ≤ lo)
    (hh : hi ≤ hi2) (h : devExt s t lo hi) : devExt s t lo2 hi2 := by
  obtain ⟨E, he, hb⟩ := h
  exact ⟨E, he, fun e hm => evtIn_mono hl hh (hb e hm)⟩

theorem wb_devExt (st : St) (d a v : Nat) (ha : a < 65536) :
    devExt st (i2c_eeprom_write_byte st d a v) a a :=
  wb_dev st d a v ha

theorem wb_skip (st : St) (d a v : Nat) (ha : a < 65536) (h : st.mem a = v) :
    i2c_eeprom_write_byte st d a v = st := by
  simp only [i2c_eeprom_write_byte, i2c_eeprom_read_byte, Nat.mod_eq_of_lt ha]
  rw [if_pos h]

theorem wb_perform (st : St) (d a v : Nat) (ha : a < 65536) (h : st.mem a ≠ v) :
    (i2c_eeprom_write_byte st d a v).dev =
      st.dev ++ [DevEvt.writeTx d a v, DevEvt.delayMs 10] := by
  simp only [i2c_eeprom_write_byte, i2c_eeprom_read_byte, Nat.mod_eq_of_lt ha]
  rw [if_neg h]

/-- C6: writeByte consults the stored byte first; an equal byte means no
physical write transaction and no settle delay; a differing byte means
exactly one physical write transaction followed by the 10 ms settle delay;
and writing the same value to the same address twice in a row leaves the
device log of the second call identical to the first, so only one physical
write transaction is performed in total. -/
theorem wear_skip_write_byte (st : St) (d a v : Nat) (ha : a < 65536) :
    (st.mem a = v → i2c_eeprom_write_byte st d a v = st) ∧
    (st.mem a ≠ v →
      (i2c_eeprom_write_byte st d a v).dev =
        st.dev ++ [DevEvt.writeTx d a v, DevEvt.delayMs 10]) ∧
    i2c_eeprom_write_byte (i2c_eeprom_write_byte st d a v) d a v =
      i2c_eeprom_write_byte st d a v ∧
    writeTxCount (i2c_eeprom_write_byte st d a v).dev ≤
      writeTxCount st.dev + 1 := by
  refine ⟨wb_skip st d a v ha, wb_perform st d a v ha, ?_, ?_⟩
  · by_cases h : st.mem a = v
    · simp only [wb_skip st d a v ha h]
    · have hm : (i2c_eeprom_write_byte st d a v).mem a = v := by
        rw [wb_mem st d a v ha]; simp
      exact wb_skip _ d a v ha hm
  · by_cases h : st.mem a = v
    · rw [wb_skip st d a v ha h]; omega
    · rw [wb_perform st d a v ha h]
      simp only [writeTxCount, List.countP_append]
      norm_num [List.countP, List.countP.go]

theorem wear_skip_write_byte_witness :
    (i2c_eeprom_write_byte wSt0 0x50 7 1).dev =
      [DevEvt.writeTx 0x50 7 1, DevEvt.delayMs 10] := by
  have h := (wear_skip_write_byte wSt0 0x50 7 1 (by decide)).2.1 (by decide)
  simpa using h

/-- C10: decoding any 2-byte packed time, stale slot bytes included, always
yields hour at most 15 and minute and second at most 63, because each field
is extracted under a mask. -/
theorem read_time_fields_bounded (m : Mem) (address : Nat) :
    (read_time m address).hour ≤ 15 ∧ (read_time m address).minute ≤ 63 ∧
    (read_time m address).second ≤ 63 := by
  simp only [read_time]
  exact ⟨Nat.and_le_right, Nat.and_le_right, Nat.and_le_right⟩

theorem framePres_trans {s1 s2 s3 : St} (h1 : framePres s1 s2)
    (h2 : framePres s2 s3) : framePres s1 s3 :=
  ⟨h2.1.trans h1.1, h2.2.1.trans h1.2.1, h2.2.2.1.trans h1.2.2.1,
    h2.2.2.2.trans h1.2.2.2⟩

theorem wb_framePres (st : St) (d a v : Nat) :
    framePres st (i2c_eeprom_write_byte st d a v) := by
  simp only [framePres, i2c_eeprom_write_byte]
  split <;> simp

theorem write_int_framePres (st : St) (a p : Nat) :
    framePres st (write_int st a p) := by
  simp only [write_int]
  exact framePres_trans (wb_framePres _ _ _ _) (wb_framePres _ _ _ _)

theorem write_float_framePres (st : St) (a : Nat) (f : Flt) :
    framePres st (write_float st a f) := by
  simp only [write_float]
  exact framePres_trans (framePres_trans (framePres_trans
    (wb_framePres _ _ _ _) (wb_framePres _ _ _ _)) (wb_framePres _ _ _ _))
    (wb_framePres _ _ _ _)

theorem write_time_framePres (st : St) (a : Nat) (t : Time) :
    framePres st (write_time st a t) := by
  simp only [write_time]
  exact write_int_framePres _ _ _

theorem wli_framePres (st : St) (i : Nat) (loc : LocationItem) :
    framePres st (write_location_item st i loc) := by
  simp only [write_location_item]
  exact framePres_trans (framePres_trans (write_float_framePres _ _ _)
    (write_float_framePres _ _ _)) (write_time_framePres _ _ _)

theorem write_int_devExt (st : St) (a p : Nat) (ha : a + 1 < 65536) :
    devExt st (write_int st a p) a (a + 1) := by
  simp only [write_int]
  exact devExt_trans
    (devExt_mono (by omega) (by omega) (wb_devExt st 0x50 (a + 0) (p % 256) (by omega)))
    (devExt_mono (by omega) (by omega) (wb_devExt _ 0x50 (a + 1) (p / 256 % 256) (by omega)))

theorem write_float_devExt (st : St) (a : Nat) (f : Flt) (ha : a + 3 < 65536) :
    devExt st (write_float st a f) a (a + 3) := by
  simp only [write_float]
  exact devExt_trans (devExt_trans (devExt_trans
    (devExt_mono (by omega) (by omega) (wb_devExt st 0x50 (a + 0) f.b0 (by omega)))
    (devExt_mono (by omega) (by omega) (wb_devExt _ 0x50 (a + 1) f.b1 (by omega))))
    (devExt_mono (by omega) (by omega) (wb_devExt _ 0x50 (a + 2) f.b2 (by omega))))
    (devExt_mono (by omega) (by omega) (wb_devExt _ 0x50 (a + 3) f.b3 (by omega)))

theorem write_time_devExt (st : St) (a : Nat) (t : Time) (ha : a + 1 < 65536) :
    devExt st (write_time st a t) a (a + 1) := by
  simp only [write_time]
  exact write_int_devExt st a (packedTime t) ha

theorem wli_devExt (st : St) (i : Nat) (loc : LocationItem) (hi : i < 3275) :
    devExt st (write_location_item st i loc) (2 + i * 10) (2 + i * 10 + 9) := by
  simp only [write_location_item, SERIALIZED_LENGTH]
  exact devExt_trans (devExt_trans
    (devExt_mono (by omega) (by omega)
      (write_float_devExt st (2 + i * 10) loc.lng (by omega)))
    (devExt_mono (by omega) (by omega)
      (write_float_devExt _ (2 + i * 10 + 4) loc.lat (by omega))))
    (devExt_mono (by omega) (by omega)
      (write_time_devExt _ (2 + i * 10 + 8) loc.time (by omega)))

/-- C2: add_location_item reads the counter; at full capacity it performs no
device writes and leaves the store unchanged (the C function returns void,
so success is observable only through these effects); below capacity it
writes the ten encoded record bytes at slot counter, every physical record
byte write preceding every counter byte write, and the counter reads back
incremented. -/
theorem append_behavior (st : St) (loc : LocationItem)
    (hc : read_int st.mem 0 ≤ MAX_ITEMS_IN_MEMORY) :
    (read_int st.mem 0 = MAX_ITEMS_IN_MEMORY →
      (add_location_item st loc).mem = st.mem ∧
      (add_location_item st loc).dev = st.dev) ∧
    (read_int st.mem 0 < MAX_ITEMS_IN_MEMORY →
      read_int (add_location_item st loc).mem 0 = read_int st.mem 0 + 1 ∧
      (∀ j, j < 10 →
        (add_location_item st loc).mem (2 + read_int st.mem 0 * 10 + j) =
          encByte loc j) ∧
      ∃ E1 E2, (add_location_item st loc).dev = st.dev ++ E1 ++ E2 ∧
        (∀ e ∈ E1, evtIn (2 + read_int st.mem 0 * 10)
          (2 + read_int st.mem 0 * 10 + 9) e) ∧
        (∀ e ∈ E2, evtIn 0 1 e)) := by
  constructor
  · intro h
    have hn : ¬ read_int st.mem 0 < MAX_ITEMS_IN_MEMORY := by
      rw [h]; exact Nat.lt_irrefl _
    simp only [add_location_item]
    rw [if_neg hn]
    exact ⟨rfl, rfl⟩
  · intro h
    have hk : read_int st.mem 0 < 3275 := h
    simp only [add_location_item]
    rw [if_pos h]
    refine ⟨?_, ?_, ?_⟩
    · exact read_int_write_int _ 0 (read_int st.mem 0 + 1) (by omega) (by omega)
    · intro j hj
      rw [write_int_mem _ 0 (read_int st.mem 0 + 1) (by omega),
        if_neg (show ¬(2 + read_int st.mem 0 * 10 + j = 0 + 1) by omega),
        if_neg (show ¬(2 + read_int st.mem 0 * 10 + j = 0) by omega)]
      exact wli_mem_slot _ (read_int st.mem 0) loc hk j hj
    · obtain ⟨E1, he1, hb1⟩ := wli_devExt (emit st
        [Tok.str "read i=", Tok.num (sext (read_int st.mem 0)),
         Tok.str "MAX=", Tok.num 3275, Tok.nl]) (read_int st.mem 0) loc hk
      obtain ⟨E2, he2, hb2⟩ := write_int_devExt
        (write_location_item (emit st
          [Tok.str "read i=", Tok.num (sext (read_int st.mem 0)),
           Tok.str "MAX=", Tok.num 3275, Tok.nl]) (read_int st.mem 0) loc)
        0 (read_int st.mem 0 + 1) (by omega)
      refine ⟨E1, E2, ?_, hb1, fun e he =>
        evtIn_mono (Nat.le_refl 0) (by omega) (hb2 e he)⟩
      rw [he2, he1]
      rfl

theorem append_behavior_witness :
    read_int wSt0.mem 0 ≤ MAX_ITEMS_IN_MEMORY ∧
    read_int (add_location_item wSt0 wLoc1).mem 0 = 1 := by
  refine ⟨by decide, ?_⟩
  have h := ((append_behavior wSt0 wLoc1 (by decide)).2 (by decide)).1
  simpa using h

/-- C9 as stated is false: with both counter bytes 0xFF (the value the read
primitive yields when the device stays silent) the stored pattern is 0xFFFF;
the C comparison converts the signed int to unsigned, so the capacity check
fails and add_location_item performs no device write at all, instead of
writing at an out-of-range slot. -/
theorem corrupt_counter_counterexample :
    ¬ read_int cSt9.mem 0 < MAX_ITEMS_IN_MEMORY ∧
    (add_location_item cSt9 wLoc1).mem = cSt9.mem ∧
    (add_location_item cSt9 wLoc1).dev = cSt9.dev := by
  refine ⟨by decide, ?_, ?_⟩
  · simp only [add_location_item]
    rw [if_neg (by decide)]
    rfl
  · simp only [add_location_item]
    rw [if_neg (by decide)]
    rfl

/-- C9 amended: the counter is read into a 16-bit signed int, but the
capacity comparison converts it to unsigned (both operands have rank int and
MAX_ITEMS_IN_MEMORY is unsigned), so every counter pattern with the top bit
set fails the check and append performs no device writes; the corrupt
counter is treated as capacity exceeded, never written out of range. -/
theorem corrupt_counter_rejected (st : St) (loc : LocationItem)
    (h : 32768 ≤ read_int st.mem 0) :
    (add_location_item st loc).mem = st.mem ∧
    (add_location_item st loc).dev = st.dev := by
  have hn : ¬ read_int st.mem 0 < MAX_ITEMS_IN_MEMORY := by
    have hmax : MAX_ITEMS_IN_MEMORY = 3275 := rfl
    omega
  simp only [add_location_item]
  rw [if_neg hn]
  exact ⟨rfl, rfl⟩

theorem corrupt_counter_rejected_witness :
    32768 ≤ read_int cSt9.mem 0 ∧
    (add_location_item cSt9 wLoc1).mem = cSt9.mem :=
  ⟨by decide, (corrupt_counter_rejected cSt9 wLoc1 (by decide)).1⟩

/-- C7: the counter is a 16-bit value stored in bytes [0,2) and recovered by
read_int; writing it touches no byte at or above address 2; slot i occupies
exactly bytes [2+10*i, 2+10*i+10), holding the fields in the order lng
(4 bytes), lat (4 bytes), packed time (2 bytes); and the physical writes of
write_location_item happen in that field order. -/
theorem layout_counter_and_slots (st : St) (p i : Nat) (loc : LocationItem)
    (hp : p < 65536) (hi : i < MAX_ITEMS_IN_MEMORY) :
    read_int (write_int st 0 p).mem 0 = p ∧
    (∀ x, 2 ≤ x → (write_int st 0 p).mem x = st.mem x) ∧
    (∀ x, x < 2 + i * 10 ∨ 2 + i * 10 + 10 ≤ x →
      (write_location_item st i loc).mem x = st.mem x) ∧
    (∀ j, j < 10 →
      (write_location_item st i loc).mem (2 + i * 10 + j) = encByte loc j) ∧
    ∃ E1 E2 E3, (write_location_item st i loc).dev = st.dev ++ E1 ++ E2 ++ E3 ∧
      (∀ e ∈ E1, evtIn (2 + i * 10) (2 + i * 10 + 3) e) ∧
      (∀ e ∈ E2, evtIn (2 + i * 10 + 4) (2 + i * 10 + 7) e) ∧
      (∀ e ∈ E3, evtIn (2 + i * 10 + 8) (2 + i * 10 + 9) e) := by
  have hk : i < 3275 := hi
  refine ⟨read_int_write_int st 0 p (by omega) hp, ?_, wli_mem_outside st i loc hk,
    wli_mem_slot st i loc hk, ?_⟩
  · intro x hx
    rw [write_int_mem st 0 p (by omega), if_neg (show ¬(x = 0 + 1) by omega),
      if_neg (show ¬(x = 0) by omega)]
  · simp only [write_location_item, SERIALIZED_LENGTH]
    obtain ⟨E1, he1, hb1⟩ := write_float_devExt st (2 + i * 10) loc.lng (by omega)
    obtain ⟨E2, he2, hb2⟩ :=
      write_float_devExt (write_float st (2 + i * 10) loc.lng)
        (2 + i * 10 + 4) loc.lat (by omega)
    obtain ⟨E3, he3, hb3⟩ :=
      write_time_devExt (write_float (write_float st (2 + i * 10) loc.lng)
        (2 + i * 10 + 4) loc.lat) (2 + i * 10 + 8) loc.time (by omega)
    refine ⟨E1, E2, E3, ?_, hb1,
      fun e he => evtIn_mono (Nat.le_refl _) (by omega) (hb2 e he),
      fun e he => evtIn_mono (Nat.le_refl _) (by omega) (hb3 e he)⟩
    rw [he3, he2, he1]

theorem layout_counter_and_slots_witness :
    (513 < 65536 ∧ 0 < MAX_ITEMS_IN_MEMORY) ∧
    read_int (write_int wSt0 0 513).mem 0 = 513 ∧
    (write_location_item wSt0 0 wLoc1).mem (2 + 0 * 10 + 4) = encByte wLoc1 4 :=
  ⟨⟨by decide, by decide⟩,
    (layout_counter_and_slots wSt0 513 0 wLoc1 (by decide) (by decide)).1,
    (layout_counter_and_slots wSt0 513 0 wLoc1 (by decide) (by decide)).2.2.2.1
      4 (by decide)⟩

theorem add_counter (st : St) (loc : LocationItem)
    (hk : read_int st.mem 0 < 3275) :
    read_int (add_location_item st loc).mem 0 = read_int st.mem 0 + 1 := by
  simp only [add_location_item]
  rw [if_pos (show read_int st.mem 0 < MAX_ITEMS_IN_MEMORY from hk)]
  exact read_int_write_int _ 0 _ (by omega) (by omega)

theorem add_slot (st : St) (loc : LocationItem)
    (hk : read_int st.mem 0 < 3275) :
    ∀ j, j < 10 →
      (add_location_item st loc).mem (2 + read_int st.mem 0 * 10 + j) =
        encByte loc j := by
  intro j hj
  simp only [add_location_item]
  rw [if_pos (show read_int st.mem 0 < MAX_ITEMS_IN_MEMORY from hk)]
  rw [write_int_mem _ 0 (read_int st.mem 0 + 1) (by omega),
    if_neg (show ¬(2 + read_int st.mem 0 * 10 + j = 0 + 1) by omega),
    if_neg (show ¬(2 + read_int st.mem 0 * 10 + j = 0) by omega)]
  exact wli_mem_slot _ (read_int st.mem 0) loc hk j hj

theorem add_mem_outside (st : St) (loc : LocationItem)
    (hk : read_int st.mem 0 < 3275) :
    ∀ x, 2 ≤ x →
      (x < 2 + read_int st.mem 0 * 10 ∨ 2 + read_int st.mem 0 * 10 + 10 ≤ x) →
      (add_location_item st loc).mem x = st.mem x := by
  intro x hx2 hx
  simp only [add_location_item]
  rw [if_pos (show read_int st.mem 0 < MAX_ITEMS_IN_MEMORY from hk)]
  rw [write_int_mem _ 0 (read_int st.mem 0 + 1) (by omega),
    if_neg (show ¬(x = 0 + 1) by omega), if_neg (show ¬(x = 0) by omega)]
  exact wli_mem_outside _ (read_int st.mem 0) loc hk x hx

theorem appendAll_spec (l : List LocationItem) : ∀ st : St,
    read_int st.mem 0 + l.length ≤ 3275 →
    read_int (appendAll st l).mem 0 = read_int st.mem 0 + l.length ∧
    (∀ x, 2 ≤ x → x < 2 + read_int st.mem 0 * 10 →
      (appendAll st l).mem x = st.mem x) ∧
    (∀ j, (hj : j < l.length) → ∀ b, b < 10 →
      (appendAll st l).mem (2 + (read_int st.mem 0 + j) * 10 + b) =
        encByte (l.get ⟨j, hj⟩) b) := by
  induction l with
  | nil =>
    intro st h
    refine ⟨by simp [appendAll], fun x _ _ => rfl, fun j hj => ?_⟩
    simp at hj
  | cons r t ih =>
    intro st h
    simp only [List.length_cons] at h
    have hk : read_int st.mem 0 < 3275 := by omega
    have hc1 : read_int (add_location_item st r).mem 0 =
        read_int st.mem 0 + 1 := add_counter st r hk
    have happ : appendAll st (r :: t) = appendAll (add_location_item st r) t := rfl
    obtain ⟨ihc, ihf, ihs⟩ := ih (add_location_item st r) (by rw [hc1]; omega)
    refine ⟨?_, ?_, ?_⟩
    · rw [happ, ihc, hc1]
      simp only [List.length_cons]
      omega
    · intro x hx2 hxlt
      rw [happ, ihf x hx2 (by rw [hc1]; omega)]
      exact add_mem_outside st r hk x hx2 (Or.inl (by omega))
    · intro j hj b hb
      match j with
      | 0 =>
        rw [happ]
        simp only [Nat.add_zero]
        rw [ihf (2 + read_int st.mem 0 * 10 + b) (by omega) (by rw [hc1]; omega)]
        exact add_slot st r hk b hb
      | Nat.succ j' =>
        rw [happ]
        rw [show read_int st.mem 0 + (j' + 1) = read_int (add_location_item st r).mem 0 + j' by rw [hc1]; omega]
        have hj' : j' < t.length := by
          simp only [List.length_cons] at hj; omega
        exact ihs j' hj' b hb

/-- C3 as stated is false: a record whose hour exceeds 12 is appended
successfully but reads back with the folded hour, not unchanged. -/
theorem append_readback_counterexample :
    read_int (appendAll wSt0 [wLoc13]).mem 0 = 1 ∧
    read_location_item (appendAll wSt0 [wLoc13]).mem 0 ≠ wLoc13 := by
  constructor
  · decide
  · decide

/-- C3 amended: after N successful appends starting from counter 0 with N at
most MAX_ITEMS, count reads back as N, and readAt(i) returns the i-th
appended record unchanged provided every appended record is stored
losslessly, that is hour at most 12 and minute and second at most 59 (a
record with hour in [13,23] reads back with hour - 12 instead, per the
documented 12-hour folding). -/
theorem append_monotonic (l : List LocationItem) (st : St)
    (h0 : read_int st.mem 0 = 0) (hn : l.length ≤ MAX_ITEMS_IN_MEMORY)
    (hcanon : ∀ r ∈ l, r.time.hour ≤ 12 ∧ r.time.minute ≤ 59 ∧
      r.time.second ≤ 59) :
    read_int (appendAll st l).mem 0 = l.length ∧
    ∀ i, (hi : i < l.length) →
      read_location_item (appendAll st l).mem i = l.get ⟨i, hi⟩ := by
  have hn' : l.length ≤ 3275 := hn
  obtain ⟨hc, hf, hs⟩ := appendAll_spec l st (by omega)
  constructor
  · rw [hc, h0]
    omega
  · intro i hi
    have hslot : ∀ b, b < 10 →
        (appendAll st l).mem (2 + i * 10 + b) = encByte (l.get ⟨i, hi⟩) b := by
      intro b hb
      have hx := hs i hi b hb
      rw [h0] at hx
      simpa using hx
    rw [rli_of_slot (appendAll st l).mem i (l.get ⟨i, hi⟩) (by omega) hslot]
    obtain ⟨hh, hm, hsec⟩ := hcanon (l.get ⟨i, hi⟩) (List.get_mem l i hi)
    obtain ⟨f1, f2, f3⟩ := packedTime_fields (l.get ⟨i, hi⟩).time (by omega)
      (by omega) (by omega)
    rw [f1, f2, f3]
    have hhour : (if (l.get ⟨i, hi⟩).time.hour = 12 then 12
        else (l.get ⟨i, hi⟩).time.hour % 12) = (l.get ⟨i, hi⟩).time.hour := by
      split_ifs with h12
      · rw [h12]
      · omega
    rw [hhour]

theorem append_monotonic_witness :
    read_int (appendAll wSt0 [wLoc2]).mem 0 = 1 ∧
    read_location_item (appendAll wSt0 [wLoc2]).mem 0 = wLoc2 := by
  have h := append_monotonic [wLoc2] wSt0 (by decide) (by decide) (by decide)
  exact ⟨h.1, h.2 0 (by decide)⟩

theorem linesOf_line (L B : List Tok) (h : Tok.nl ∉ L) :
    linesOf (L ++ Tok.nl :: B) = L :: linesOf B := by
  induction L with
  | nil => simp [linesOf]
  | cons t ts ih =>
    have ht : t ≠ Tok.nl := by
      intro e
      exact h (by rw [e]; exact List.mem_cons_self _ _)
    have h' : Tok.nl ∉ ts := fun hm => h (List.mem_cons_of_mem _ hm)
    cases t with
    | nl => exact absurd rfl ht
    | str s => simp [linesOf, ih h']
    | num n => simp [linesOf, ih h']
    | chr c => simp [linesOf, ih h']
    | flt f p => simp [linesOf, ih h']

theorem linesOf_join_map {α : Type} (f : α → List Tok) (l : List α)
    (h : ∀ a, Tok.nl ∉ f a) :
    linesOf ((l.map (fun a => f a ++ [Tok.nl])).join) = l.map f := by
  induction l with
  | nil => rfl
  | cons a t ih =>
    simp only [List.map_cons, List.join_cons, List.append_assoc,
      List.singleton_append]
    rw [linesOf_line (f a) _ (h a), ih]

theorem recordLine_no_nl (v : LocationItem) : Tok.nl ∉ recordLine v := by
  simp [recordLine]

theorem export_loop_spec (n : Nat) : ∀ st : St,
    (export_loop st n).out = st.out ++
      ((List.range n).map
        (fun index => recordLine (read_location_item st.mem index) ++ [Tok.nl])).join ∧
    (export_loop st n).mem = st.mem ∧
    (export_loop st n).dev = st.dev ∧
    (export_loop st n).sin = st.sin ∧
    (export_loop st n).gps = st.gps ∧
    (export_loop st n).mode = st.mode := by
  induction n with
  | zero => intro st; simp [export_loop]
  | succ k ih =>
    intro st
    obtain ⟨ho, hm, hd, hsi, hg, hmo⟩ := ih st
    have hstep : export_loop st (k + 1) =
        print_location_item (export_loop st k)
          (read_location_item (export_loop st k).mem k) := by
      simp only [export_loop, List.range_succ, List.foldl_append, List.foldl_cons,
        List.foldl_nil]
    rw [hstep]
    simp only [print_location_item, emit]
    refine ⟨?_, hm, hd, hsi, hg, hmo⟩
    rw [ho, hm, List.range_succ]
    simp [List.join_append]

theorem export_all (st : St) :
    (execute_command_export st).out = st.out ++ exportToks st.mem ∧
    (execute_command_export st).mem = st.mem ∧
    (execute_command_export st).dev = st.dev ∧
    (execute_command_export st).sin = st.sin ∧
    (execute_command_export st).gps = st.gps ∧
    (execute_command_export st).mode = st.mode := by
  simp only [execute_command_export, exportToks]
  obtain ⟨ho, hm, hd, hsi, hg, hmo⟩ := export_loop_spec
    (if read_int st.mem 0 < 32768 then read_int st.mem 0 else 0)
    (emit st [Tok.str "read itemsCount=", Tok.num (sext (read_int st.mem 0)), Tok.nl])
  refine ⟨?_, hm, hd, hsi, hg, hmo⟩
  rw [ho]
  simp [emit, List.append_assoc]

theorem linesOf_two (a b : Tok) (B : List Tok) (ha : a ≠ Tok.nl)
    (hb : b ≠ Tok.nl) :
    linesOf (a :: b :: Tok.nl :: B) = [a, b] :: linesOf B := by
  have hnm : Tok.nl ∉ [a, b] := by
    simp only [List.mem_cons, List.not_mem_nil, or_false]
    push_neg
    exact ⟨fun e => ha e.symm, fun e => hb e.symm⟩
  have h := linesOf_line [a, b] B hnm
  simpa using h

/-- C5 as stated is false on the code: on an empty log export emits the
diagnostic line read itemsCount=0, so its output is not exactly count()
lines and nothing else. -/
theorem export_counterexample :
    read_int wSt0.mem 0 = 0 ∧ (execute_command_export wSt0).out ≠ wSt0.out := by
  constructor
  · decide
  · decide

/-- C5 amended: for every stored log (counter at most MAX_ITEMS), export
emits one diagnostic line read itemsCount= followed by the counter value,
and then exactly count() record lines, one per index in increasing order,
each consisting of longitude, comma, latitude, comma, hour colon minute
colon second, the two floats printed with 6 decimal places. -/
theorem export_emits_lines (st : St)
    (hc : read_int st.mem 0 ≤ MAX_ITEMS_IN_MEMORY) :
    (execute_command_export st).out = st.out ++ exportToks st.mem ∧
    linesOf (exportToks st.mem) =
      [Tok.str "read itemsCount=", Tok.num (read_int st.mem 0 : Int)] ::
        (List.range (read_int st.mem 0)).map
          (fun index => recordLine (read_location_item st.mem index)) := by
  refine ⟨(export_all st).1, ?_⟩
  have h3275 : read_int st.mem 0 ≤ 3275 := hc
  simp only [exportToks]
  rw [if_pos (show read_int st.mem 0 < 32768 by omega)]
  have hsext : sext (read_int st.mem 0) = (read_int st.mem 0 : Int) := by
    simp only [sext]
    rw [if_pos (by omega)]
  rw [hsext]
  simp only [List.cons_append, List.nil_append]
  rw [linesOf_two _ _ _ (by simp) (by simp)]
  rw [linesOf_join_map (fun index => recordLine (read_location_item st.mem index))
    (List.range (read_int st.mem 0)) (fun a => recordLine_no_nl _)]

theorem export_emits_lines_witness :
    read_int wSt0.mem 0 ≤ MAX_ITEMS_IN_MEMORY ∧
    linesOf (exportToks wSt0.mem) =
      [[Tok.str "read itemsCount=", Tok.num 0]] := by
  refine ⟨by decide, ?_⟩
  have h := (export_emits_lines wSt0 (by decide)).2
  simpa using h

theorem reset_effects (st : St) :
    (execute_command_reset st).out = st.out ++ exportToks st.mem ++
      [Tok.str "Memory reset", Tok.nl, Tok.str "i=", Tok.num 0, Tok.nl] ∧
    read_int (execute_command_reset st).mem 0 = 0 ∧
    (∀ x, 2 ≤ x → (execute_command_reset st).mem x = st.mem x) ∧
    devExt st (execute_command_reset st) 0 1 ∧
    (execute_command_reset st).sin = st.sin ∧
    (execute_command_reset st).gps = st.gps ∧
    (execute_command_reset st).mode = st.mode := by
  obtain ⟨ho, hm, hd, hsi, hg, hmo⟩ := export_all st
  have hz : read_int (write_int (execute_command_export st) 0 0).mem 0 = 0 :=
    read_int_write_int _ 0 0 (by omega) (by omega)
  have hsz : sext (read_int (write_int (execute_command_export st) 0 0).mem 0) = 0 := by
    rw [hz]
    simp [sext]
  have hfr := write_int_framePres (execute_command_export st) 0 0
  simp only [execute_command_reset, emit]
  refine ⟨?_, ?_, ?_, ?_, ?_, ?_, ?_⟩
  · rw [hsz, hfr.1, ho]
  · exact hz
  · intro x hx
    rw [write_int_mem _ 0 0 (by omega), if_neg (show ¬(x = 0 + 1) by omega),
      if_neg (show ¬(x = 0) by omega), hm]
  · obtain ⟨E, hE, hb⟩ := write_int_devExt (execute_command_export st) 0 0 (by omega)
    refine ⟨E, ?_, fun e he => evtIn_mono (Nat.le_refl 0) (by omega) (hb e he)⟩
    rw [hE, hd]
  · rw [hfr.2.1, hsi]
  · rw [hfr.2.2.1, hg]
  · rw [hfr.2.2.2, hmo]

/-- C4: an export immediately followed by reset makes the reset re-emit
exactly the same export lines as the standalone export did, then the
confirmation; afterwards the counter reads back 0 while every byte at or
above address 2 (all record slot bytes) is unchanged, and every physical
write of the whole reset lies in the two counter bytes [0,1]. -/
theorem reset_after_export (st : St) :
    (execute_command_reset (execute_command_export st)).out =
      (execute_command_export st).out ++ exportToks st.mem ++
      [Tok.str "Memory reset", Tok.nl, Tok.str "i=", Tok.num 0, Tok.nl] ∧
    read_int (execute_command_reset (execute_command_export st)).mem 0 = 0 ∧
    (∀ x, 2 ≤ x →
      (execute_command_reset (execute_command_export st)).mem x = st.mem x) ∧
    devExt st (execute_command_reset (execute_command_export st)) 0 1 := by
  obtain ⟨ho, hm, hd, hsi, hg, hmo⟩ := export_all st
  obtain ⟨ro, rc, rm, rd, rsi, rg, rmo⟩ := reset_effects (execute_command_export st)
  refine ⟨?_, rc, ?_, ?_⟩
  · rw [ro, hm]
  · intro x hx
    rw [rm x hx, hm]
  · have hde : devExt st (execute_command_export st) 0 1 :=
      ⟨[], by rw [hd]; simp, by simp⟩
    exact devExt_trans hde rd

theorem reset_after_export_witness :
    read_int (execute_command_reset (execute_command_export wSt0)).mem 0 = 0 ∧
    (execute_command_reset (execute_command_export wSt0)).mem 5 = wSt0.mem 5 :=
  ⟨(reset_after_export wSt0).2.1, (reset_after_export wSt0).2.2.1 5 (by omega)⟩

theorem ctrlPres_trans {s1 s2 s3 : St} (h1 : ctrlPres s1 s2)
    (h2 : ctrlPres s2 s3) : ctrlPres s1 s3 :=
  ⟨h2.1.trans h1.1, h2.2.1.trans h1.2.1, h2.2.2.trans h1.2.2⟩

theorem framePres_ctrl {s t : St} (h : framePres s t) : ctrlPres s t :=
  ⟨h.2.1, h.2.2.1, h.2.2.2⟩

theorem emit_ctrlPres (st : St) (ts : List Tok) : ctrlPres st (emit st ts) :=
  ⟨rfl, rfl, rfl⟩

theorem add_location_item_ctrlPres (st : St) (loc : LocationItem) :
    ctrlPres st (add_location_item st loc) := by
  simp only [add_location_item]
  split
  · exact ctrlPres_trans (ctrlPres_trans (emit_ctrlPres st _)
      (framePres_ctrl (wli_framePres _ _ _)))
      (framePres_ctrl (write_int_framePres _ _ _))
  · exact emit_ctrlPres st _

theorem export_ctrlPres (st : St) : ctrlPres st (execute_command_export st) :=
  ⟨(export_all st).2.2.2.1, (export_all st).2.2.2.2.1, (export_all st).2.2.2.2.2⟩

theorem reset_ctrlPres (st : St) : ctrlPres st (execute_command_reset st) :=
  ⟨(reset_effects st).2.2.2.2.1, (reset_effects st).2.2.2.2.2.1,
    (reset_effects st).2.2.2.2.2.2⟩

theorem execute_command_ctrlPres (st : St) (command : Nat) :
    ctrlPres st (execute_command st command) := by
  simp only [execute_command]
  split_ifs
  · exact emit_ctrlPres st _
  · exact export_ctrlPres st
  · exact reset_ctrlPres st
  · exact ⟨rfl, rfl, rfl⟩

theorem process_serial_command_mode (st : St) :
    (process_serial_command st).mode = st.mode := by
  simp only [process_serial_command]
  split
  · rfl
  · split
    · exact (execute_command_ctrlPres _ _).2.2
    · rfl

theorem gps_tracking_sin_mode (st : St) :
    (gps_tracking st).sin = st.sin ∧ (gps_tracking st).mode = st.mode := by
  simp only [gps_tracking]
  split
  · next loc rest heq =>
    have h := add_location_item_ctrlPres { st with gps := rest } loc
    exact ⟨h.1, h.2.2⟩
  · exact ⟨rfl, rfl⟩
  · exact ⟨rfl, rfl⟩

theorem loop_preserves_command (s : St) (h : s.mode = MODE_COMMAND) :
    (loop s).mode = MODE_COMMAND := by
  have hnt : ¬ s.mode = MODE_TRACKING := by rw [h]; decide
  simp only [loop]
  rw [if_neg hnt, if_pos h]
  split
  · rfl
  · rw [process_serial_command_mode s, h]

/-- C8: the mode flag starts as TRACKING; while tracking, a pending control
byte (whatever its value) switches the mode to COMMAND within the same loop
iteration; and once the mode is COMMAND, any number of further loop
iterations leaves it COMMAND, so the controller never returns to
tracking. -/
theorem mode_state_machine (st : St) (n : Nat) :
    modeInit = MODE_TRACKING ∧
    (st.mode = MODE_TRACKING → st.sin ≠ [] → (loop st).mode = MODE_COMMAND) ∧
    (st.mode = MODE_COMMAND → (loop^[n] st).mode = MODE_COMMAND) := by
  refine ⟨rfl, ?_, ?_⟩
  · intro hm hs
    simp only [loop]
    rw [if_pos hm]
    rw [if_pos (show (gps_tracking st).sin ≠ [] by
      rw [(gps_tracking_sin_mode st).1]; exact hs)]
  · intro hm
    induction n with
    | zero => simpa using hm
    | succ k ih =>
      rw [Function.iterate_succ_apply']
      exact loop_preserves_command _ ih

theorem mode_state_machine_witness :
    (loop wStT).mode = MODE_COMMAND ∧ (loop^[2] wStC).mode = MODE_COMMAND :=
  ⟨(mode_state_machine wStT 0).2.1 rfl (by decide),
    (mode_state_machine wStC 2).2.2 rfl⟩
